import Mathlib

/-!
Verification of the MSME scheme data-entry tool (src/data_entry.py, src/working.py
and the unnamed copy).  The embedding models the MongoDB collections as lists of
documents: a collection method touching the first document matching a scheme_id
filter (find_one, replace_one, update_one, delete_one) is modelled as the
corresponding operation on the first list element whose key matches, and
insert_one appends.  Timestamps are integers counting seconds, standing for
datetime.utcnow(); the code only ever subtracts them and compares the difference
with 300, which the integer model reproduces exactly.
-/

namespace DataEntry

/-- Generic point lookup: collection.find_one on a scheme_id filter returns the
first document whose key equals the requested id, if any. -/
def coll_find_one {α : Type} (key : α → String) (sid : String) (coll : List α) : Option α :=
  coll.find? (fun d => key d == sid)

/-- Generic collection.insert_one: appends the new document. -/
def coll_insert_one {α : Type} (d : α) (coll : List α) : List α :=
  coll ++ [d]

/-- Generic replace_one / update_one on a scheme_id filter: rewrite the first
document whose key matches, leave everything else alone; no match, no write. -/
def coll_modify_one {α : Type} (key : α → String) (sid : String) (f : α → α) : List α → List α
  | [] => []
  | d :: rest => if key d == sid then f d :: rest else d :: coll_modify_one key sid f rest

/-- Generic collection.delete_one on a scheme_id filter: remove the first
document whose key matches; removing nothing when no match is not an error. -/
def coll_delete_one {α : Type} (key : α → String) (sid : String) : List α → List α
  | [] => []
  | d :: rest => if key d == sid then rest else d :: coll_delete_one key sid rest

/-- A collection is well keyed when no two documents share a key.  Sequential
use of the tool preserves this for the locks and schemes collections. -/
def KeyWF {α : Type} (key : α → String) (coll : List α) : Prop :=
  coll.Pairwise (fun a b => key a ≠ key b)

/-- A document of the locks collection, as built by acquire_lock:
the dict with scheme_id, locked_by and locked_at keys. -/
structure LockDoc where
  scheme_id : String
  locked_by : String
  locked_at : Int
deriving DecidableEq, Repr

def locks_find_one (sid : String) (locks : List LockDoc) : Option LockDoc :=
  coll_find_one LockDoc.scheme_id sid locks

def locks_insert_one (d : LockDoc) (locks : List LockDoc) : List LockDoc :=
  coll_insert_one d locks

def locks_replace_one (sid : String) (d : LockDoc) (locks : List LockDoc) : List LockDoc :=
  coll_modify_one LockDoc.scheme_id sid (fun _ => d) locks

/-- locks_coll.update_one with a dollar-set of locked_at to now. -/
def locks_update_locked_at (sid : String) (now : Int) (locks : List LockDoc) : List LockDoc :=
  coll_modify_one LockDoc.scheme_id sid (fun d => { d with locked_at := now }) locks

def locks_delete_one (sid : String) (locks : List LockDoc) : List LockDoc :=
  coll_delete_one LockDoc.scheme_id sid locks

/-- acquire_lock from src/data_entry.py lines 54-74 (identical in
src/working.py lines 23-36 and src/unnamed/part_000 lines 117-130).
Returns the boolean result together with the locks collection after the call. -/
def acquire_lock (scheme_id user : String) (now : Int) (locks : List LockDoc) :
    Bool × List LockDoc :=
  match locks_find_one scheme_id locks with
  | some lock_doc =>
    if now - lock_doc.locked_at > 300 then
      (true, locks_replace_one scheme_id ⟨scheme_id, user, now⟩ locks)
    else if lock_doc.locked_by == user then
      (true, locks_update_locked_at scheme_id now locks)
    else
      (false, locks)
  | none => (true, locks_insert_one ⟨scheme_id, user, now⟩ locks)

/-- The expiry test the code performs: the lock is older than 5 minutes. -/
def lockExpired (now : Int) (d : LockDoc) : Prop :=
  now - d.locked_at > 300

/-- A lease is active when the code's expiry test fails. -/
def lockActive (now : Int) (d : LockDoc) : Prop :=
  ¬ lockExpired now d

instance (now : Int) (d : LockDoc) : Decidable (lockExpired now d) := by
  unfold lockExpired; infer_instance

instance (now : Int) (d : LockDoc) : Decidable (lockActive now d) := by
  unfold lockActive; infer_instance

/-- The read phase of acquire_lock: the single locks_coll.find_one call. -/
def acquire_lock_read (scheme_id : String) (locks : List LockDoc) : Option LockDoc :=
  locks_find_one scheme_id locks

/-- The write phase of acquire_lock: the decision and the at-most-one write,
as a function of the document observed by the earlier read.  The source
performs read and write as two separate store round trips with no atomicity
between them, so a concurrent interleaving can run both reads before either
write; this phase split makes that schedule expressible. -/
def acquire_lock_write (scheme_id user : String) (now : Int) (observed : Option LockDoc)
    (locks : List LockDoc) : Bool × List LockDoc :=
  match observed with
  | some lock_doc =>
    if now - lock_doc.locked_at > 300 then
      (true, locks_replace_one scheme_id ⟨scheme_id, user, now⟩ locks)
    else if lock_doc.locked_by == user then
      (true, locks_update_locked_at scheme_id now locks)
    else
      (false, locks)
  | none => (true, locks_insert_one ⟨scheme_id, user, now⟩ locks)

/-- The interleaving in which both actors' find_one reads happen before either
actor's write, starting from a common locks collection. -/
def race_schedule (scheme_id userA userB : String) (nowA nowB : Int)
    (locks0 : List LockDoc) : Bool × Bool × List LockDoc :=
  let rA := acquire_lock_read scheme_id locks0
  let rB := acquire_lock_read scheme_id locks0
  let wA := acquire_lock_write scheme_id userA nowA rA locks0
  let wB := acquire_lock_write scheme_id userB nowB rB wA.2
  (wA.1, wB.1, wB.2)

/-- A store operation performed by acquire_lock against the locks collection. -/
inductive StoreOp where
  | read : StoreOp
  | write : StoreOp
deriving DecidableEq, Repr

/-- acquire_lock instrumented with the sequence of lease-store operations it
performs: the find_one is a read, and each of replace_one, update_one and
insert_one is a write.  Mirrors acquire_lock branch for branch. -/
def acquire_lock_ops (scheme_id user : String) (now : Int) (locks : List LockDoc) :
    Bool × List LockDoc × List StoreOp :=
  match locks_find_one scheme_id locks with
  | some lock_doc =>
    if now - lock_doc.locked_at > 300 then
      (true, locks_replace_one scheme_id ⟨scheme_id, user, now⟩ locks, [.read, .write])
    else if lock_doc.locked_by == user then
      (true, locks_update_locked_at scheme_id now locks, [.read, .write])
    else
      (false, locks, [.read])
  | none => (true, locks_insert_one ⟨scheme_id, user, now⟩ locks, [.read, .write])

/-- A document of the schemes collection.  The control flow of the tool looks
only at scheme_id, last_modified_by and last_modified_at; the remaining form
fields travel through untouched and are modelled as an opaque association
list. -/
structure SchemeDoc where
  scheme_id : String
  fields : List (String × String)
  last_modified_by : Option String
  last_modified_at : Option Int
deriving DecidableEq, Repr

/-- A document of the user_logs collection: the dict with scheme_id, user,
action and timestamp keys inserted on create, edit and delete. -/
structure LogEntry where
  scheme_id : String
  user : String
  action : String
  timestamp : Int
deriving DecidableEq, Repr

def schemes_find_one (sid : String) (schemes : List SchemeDoc) : Option SchemeDoc :=
  coll_find_one SchemeDoc.scheme_id sid schemes

def schemes_insert_one (d : SchemeDoc) (schemes : List SchemeDoc) : List SchemeDoc :=
  coll_insert_one d schemes

def schemes_replace_one (sid : String) (d : SchemeDoc) (schemes : List SchemeDoc) :
    List SchemeDoc :=
  coll_modify_one SchemeDoc.scheme_id sid (fun _ => d) schemes

def schemes_delete_one (sid : String) (schemes : List SchemeDoc) : List SchemeDoc :=
  coll_delete_one SchemeDoc.scheme_id sid schemes

def logs_insert_one (e : LogEntry) (logs : List LogEntry) : List LogEntry :=
  coll_insert_one e logs

/-- The three MongoDB collections the tool works against. -/
structure AppState where
  schemes : List SchemeDoc
  locks : List LockDoc
  logs : List LogEntry
deriving DecidableEq, Repr

/-- Outcome of a save interaction, per the controller contract:
Saved, ValidationError (blank or duplicate id on create), or LeaseLost
(the lease gate denied the rerun that carried the save). -/
inductive SaveOutcome where
  | Saved : SaveOutcome
  | ValidationError : SaveOutcome
  | LeaseLost : SaveOutcome
deriving DecidableEq, Repr

/-- The save handler for a brand-new record, src/data_entry.py lines 326-343
(src/working.py lines 119-131): stamp last_modified_by/at, then reject a blank
scheme_id, then reject an id already present in the schemes collection, and
only otherwise insert the scheme and append a created log entry. -/
def save_new (draft : SchemeDoc) (user : String) (now : Int) (st : AppState) :
    SaveOutcome × AppState :=
  let draft2 := { draft with last_modified_by := some user, last_modified_at := some now }
  if draft2.scheme_id == "" then
    (SaveOutcome.ValidationError, st)
  else if (schemes_find_one draft2.scheme_id st.schemes).isSome then
    (SaveOutcome.ValidationError, st)
  else
    (SaveOutcome.Saved,
      { st with
        schemes := schemes_insert_one draft2 st.schemes,
        logs := logs_insert_one ⟨draft2.scheme_id, user, "created", now⟩ st.logs })

/-- The save interaction for an existing record.  Clicking Save reruns the
whole script, so the lease gate at src/data_entry.py line 190 (acquire_lock
followed by st.stop on failure) executes before the form body of lines 344-356
on the very rerun that carries the save.  If the gate denies, the page stops
with the being-edited error and nothing is written: the save is lost to the
lease (LeaseLost).  If the gate grants, the save body stamps
last_modified_by/at, replaces the scheme, deletes the lock and appends an
edited log entry. -/
def save_existing (selected_id user : String) (now : Int) (draft : SchemeDoc)
    (st : AppState) : SaveOutcome × AppState :=
  let gate := acquire_lock selected_id user now st.locks
  if gate.1 then
    let draft2 := { draft with last_modified_by := some user, last_modified_at := some now }
    (SaveOutcome.Saved,
      { schemes := schemes_replace_one selected_id draft2 st.schemes,
        locks := locks_delete_one selected_id gate.2,
        logs := logs_insert_one ⟨selected_id, user, "edited", now⟩ st.logs })
  else
    (SaveOutcome.LeaseLost, { st with locks := gate.2 })

/-- The delete handler, src/data_entry.py lines 161-178 (src/unnamed/part_000
lines 215-234): schemes_coll.delete_one plus a deleted log entry; no operation
touches the locks collection. -/
def delete_scheme (selected_id user : String) (now : Int) (st : AppState) : AppState :=
  { schemes := schemes_delete_one selected_id st.schemes,
    locks := st.locks,
    logs := logs_insert_one ⟨selected_id, user, "deleted", now⟩ st.logs }

/-- Characters at which Python str.splitlines breaks a line.  A CRLF pair is
modelled as two boundaries, which yields one extra empty line compared to
Python; the surrounding list-field parse filters blank lines out, so the
composed transform agrees with the source on every input. -/
def lineBoundary (c : Char) : Bool :=
  c == '\n' || c == '\r' || c == '\x0b' || c == '\x0c' ||
  c == '\x1c' || c == '\x1d' || c == '\x1e' || c == '\x85' ||
  c == '\u2028' || c == '\u2029'

/-- Characters removed by str.strip: the full Unicode whitespace set of
str.isspace — space, tab, the line boundaries, the unit separator, the
no-break and narrow no-break spaces, the ogham space mark, the en-quad
through hair-space range, the mathematical and ideographic spaces. -/
def pyWhitespace (c : Char) : Bool :=
  c == ' ' || c == '\t' || c == '\x1f' || c == '\xa0' || c == '\u1680' ||
  c == '\u2000' || c == '\u2001' || c == '\u2002' || c == '\u2003' ||
  c == '\u2004' || c == '\u2005' || c == '\u2006' || c == '\u2007' ||
  c == '\u2008' || c == '\u2009' || c == '\u200a' || c == '\u202f' ||
  c == '\u205f' || c == '\u3000' ||
  lineBoundary c

/-- str.strip modelled on the character list: drop whitespace from the front,
then from the back. -/
def pyStrip (s : List Char) : List Char :=
  (s.dropWhile pyWhitespace).rdropWhile pyWhitespace

/-- str.splitlines modelled on the character list: split at every boundary
character; a trailing boundary does not produce a final empty line, and the
empty string has no lines at all. -/
def pySplitlines (s : List Char) : List (List Char) :=
  let parts := s.splitOnP lineBoundary
  if parts.getLast? = some [] then parts.dropLast else parts

/-- Reading a list-typed field back out of its text area,
src/data_entry.py lines 269-271 (also 281-283 and 307-309; src/working.py
line 114): the lines of the text, each stripped, blank lines dropped. -/
def parseListField (s : List Char) : List (List Char) :=
  ((pySplitlines s).map pyStrip).filter (fun t => !t.isEmpty)

/-- Rendering a list-typed field into its text area, src/data_entry.py
line 262 (and 274, 300; src/working.py line 113): newline-join the entries. -/
def joinLines (l : List (List Char)) : List Char :=
  List.intercalate ['\n'] l

lemma coll_delete_one_of_find_none {α : Type} (key : α → String) (sid : String)
    (coll : List α) (h : coll_find_one key sid coll = none) :
    coll_delete_one key sid coll = coll := by
  induction coll with
  | nil => rfl
  | cons d rest ih =>
    by_cases hkd : key d = sid
    · rw [coll_find_one, List.find?_cons_of_pos _ (by simp [hkd])] at h
      cases h
    · rw [coll_find_one, List.find?_cons_of_neg _ (by simp [hkd])] at h
      simp only [coll_delete_one, if_neg (show ¬ (key d == sid) = true by simp [hkd])]
      rw [ih h]

lemma coll_find_one_delete {α : Type} (key : α → String) (sid : String)
    (coll : List α) (hwf : KeyWF key coll) :
    coll_find_one key sid (coll_delete_one key sid coll) = none := by
  induction coll with
  | nil => rfl
  | cons d rest ih =>
    rcases List.pairwise_cons.mp hwf with ⟨hd, hrest⟩
    by_cases hkd : key d = sid
    · simp only [coll_delete_one, if_pos (show (key d == sid) = true by simp [hkd])]
      rw [coll_find_one, List.find?_eq_none]
      intro x hx hxs
      have hxs' : key x = sid := by simpa using hxs
      exact hd x hx (hkd.trans hxs'.symm)
    · simp only [coll_delete_one, if_neg (show ¬ (key d == sid) = true by simp [hkd])]
      rw [coll_find_one, List.find?_cons_of_neg _ (by simp [hkd])]
      exact ih hrest

lemma coll_mem_delete_of_key_ne {α : Type} (key : α → String) (sid : String)
    (coll : List α) (x : α) (hx : x ∈ coll) (hne : key x ≠ sid) :
    x ∈ coll_delete_one key sid coll := by
  induction coll with
  | nil => cases hx
  | cons d rest ih =>
    rcases List.mem_cons.mp hx with rfl | hx'
    · simp only [coll_delete_one, if_neg (show ¬ (key x == sid) = true by simp [hne])]
      exact List.mem_cons_self _ _
    · by_cases hkd : key d = sid
      · simp only [coll_delete_one, if_pos (show (key d == sid) = true by simp [hkd])]
        exact hx'
      · simp only [coll_delete_one, if_neg (show ¬ (key d == sid) = true by simp [hkd])]
        exact List.mem_cons_of_mem _ (ih hx')

lemma coll_find_one_modify {α : Type} (key : α → String) (sid : String) (f : α → α)
    (coll : List α) (d : α) (h : coll_find_one key sid coll = some d)
    (hf : key (f d) = key d) :
    coll_find_one key sid (coll_modify_one key sid f coll) = some (f d) := by
  induction coll with
  | nil => cases h
  | cons a rest ih =>
    by_cases hka : key a = sid
    · rw [coll_find_one, List.find?_cons_of_pos _ (by simp [hka])] at h
      have had : a = d := by injection h
      subst had
      simp only [coll_modify_one, if_pos (show (key a == sid) = true by simp [hka])]
      rw [coll_find_one, List.find?_cons_of_pos _ (by simp [hf, hka])]
    · rw [coll_find_one, List.find?_cons_of_neg _ (by simp [hka])] at h
      simp only [coll_modify_one, if_neg (show ¬ (key a == sid) = true by simp [hka])]
      rw [coll_find_one, List.find?_cons_of_neg _ (by simp [hka])]
      exact ih h

lemma coll_mem_modify_of_key_ne {α : Type} (key : α → String) (sid : String) (f : α → α)
    (coll : List α) (x : α) (hx : x ∈ coll) (hne : key x ≠ sid) :
    x ∈ coll_modify_one key sid f coll := by
  induction coll with
  | nil => cases hx
  | cons a rest ih =>
    rcases List.mem_cons.mp hx with rfl | hx'
    · simp only [coll_modify_one, if_neg (show ¬ (key x == sid) = true by simp [hne])]
      exact List.mem_cons_self _ _
    · by_cases hka : key a = sid
      · simp only [coll_modify_one, if_pos (show (key a == sid) = true by simp [hka])]
        exact List.mem_cons_of_mem _ hx'
      · simp only [coll_modify_one, if_neg (show ¬ (key a == sid) = true by simp [hka])]
        exact List.mem_cons_of_mem _ (ih hx')

/-- C2: acquire_lock decision algorithm.  For every record, actor and time:
with no lease present the call grants and inserts a fresh lock held by the
actor at time now; with an expired lease present it grants and overwrites the
lock with a fresh one for the actor; with an active lease held by the same
actor it grants and renews; it denies exactly when an active lease is held by
a different actor, and a denial writes nothing to the lease store. -/
theorem acquire_lock_decision (sid actor : String) (now : Int) (locks : List LockDoc) :
    (locks_find_one sid locks = none →
      acquire_lock sid actor now locks =
        (true, locks_insert_one ⟨sid, actor, now⟩ locks)) ∧
    (∀ d, locks_find_one sid locks = some d → lockExpired now d →
      acquire_lock sid actor now locks =
        (true, locks_replace_one sid ⟨sid, actor, now⟩ locks)) ∧
    (∀ d, locks_find_one sid locks = some d → lockActive now d → d.locked_by = actor →
      acquire_lock sid actor now locks =
        (true, locks_update_locked_at sid now locks)) ∧
    ((acquire_lock sid actor now locks).1 = false ↔
      ∃ d, locks_find_one sid locks = some d ∧ lockActive now d ∧ d.locked_by ≠ actor) ∧
    ((acquire_lock sid actor now locks).1 = false →
      (acquire_lock sid actor now locks).2 = locks) := by
  cases hfind : locks_find_one sid locks with
  | none =>
    have hres : acquire_lock sid actor now locks =
        (true, locks_insert_one ⟨sid, actor, now⟩ locks) := by
      simp [acquire_lock, hfind]
    refine ⟨fun _ => hres, ?_, ?_, ?_, ?_⟩
    · intro d hd; cases hd
    · intro d hd; cases hd
    · rw [hres]
      simp
    · rw [hres]
      intro hfalse; cases hfalse
  | some d0 =>
    by_cases hexp : now - d0.locked_at > 300
    · have hres : acquire_lock sid actor now locks =
          (true, locks_replace_one sid ⟨sid, actor, now⟩ locks) := by
        simp [acquire_lock, hfind, hexp]
      refine ⟨?_, ?_, ?_, ?_, ?_⟩
      · intro hnone; cases hnone
      · intro d hd _
        have : d0 = d := by injection hd
        subst this
        exact hres
      · intro d hd hact _
        have : d0 = d := by injection hd
        subst this
        exact absurd hexp hact
      · rw [hres]
        constructor
        · intro hfalse; cases hfalse
        · rintro ⟨d, hd, hact, -⟩
          have : d0 = d := by injection hd
          subst this
          exact absurd hexp hact
      · rw [hres]
        intro hfalse; cases hfalse
    · by_cases hby : d0.locked_by = actor
      · have hres : acquire_lock sid actor now locks =
            (true, locks_update_locked_at sid now locks) := by
          simp [acquire_lock, hfind, hexp, hby]
        refine ⟨?_, ?_, ?_, ?_, ?_⟩
        · intro hnone; cases hnone
        · intro d hd hde
          have : d0 = d := by injection hd
          subst this
          exact absurd hde hexp
        · intro d hd _ _
          have : d0 = d := by injection hd
          subst this
          exact hres
        · rw [hres]
          constructor
          · intro hfalse; cases hfalse
          · rintro ⟨d, hd, -, hne⟩
            have : d0 = d := by injection hd
            subst this
            exact absurd hby hne
        · rw [hres]
          intro hfalse; cases hfalse
      · have hres : acquire_lock sid actor now locks = (false, locks) := by
          simp [acquire_lock, hfind, hexp, hby]
        refine ⟨?_, ?_, ?_, ?_, ?_⟩
        · intro hnone; cases hnone
        · intro d hd hde
          have : d0 = d := by injection hd
          subst this
          exact absurd hde hexp
        · intro d hd _ hdby
          have : d0 = d := by injection hd
          subst this
          exact absurd hdby hby
        · rw [hres]
          exact ⟨fun _ => ⟨d0, rfl, hexp, hby⟩, fun _ => rfl⟩
        · rw [hres]
          intro _; rfl

/-- C2 witness: with an active lease held by A, an acquisition attempt by B
at time 10 is denied and the lease store is not mutated. -/
theorem acquire_lock_decision_witness :
    (acquire_lock "S1" "B" 10 [⟨"S1", "A", 0⟩]).1 = false ∧
    (acquire_lock "S1" "B" 10 [⟨"S1", "A", 0⟩]).2 = [⟨"S1", "A", 0⟩] := by
  have h := acquire_lock_decision "S1" "B" 10 [⟨"S1", "A", 0⟩]
  have hfalse : (acquire_lock "S1" "B" 10 [⟨"S1", "A", 0⟩]).1 = false :=
    h.2.2.2.1.mpr ⟨⟨"S1", "A", 0⟩, by decide, by decide, by decide⟩
  exact ⟨hfalse, h.2.2.2.2 hfalse⟩

/-- C3: TTL boundary and expiry reclamation.  A lease is active exactly when
now minus its timestamp is at most 300 seconds and expired exactly when that
difference exceeds 300; concretely, after A acquires S1 at t equal 0, B is
denied at t equal 10 and still at the boundary t equal 300, while B's retry at
t equal 301 is granted and installs B's fresh lease. -/
theorem ttl_boundary_and_reclamation :
    (∀ (now : Int) (d : LockDoc), lockActive now d ↔ now - d.locked_at ≤ 300) ∧
    (∀ (now : Int) (d : LockDoc), lockExpired now d ↔ ¬ now - d.locked_at ≤ 300) ∧
    (acquire_lock "S1" "B" 10 (acquire_lock "S1" "A" 0 []).2).1 = false ∧
    (acquire_lock "S1" "B" 300 (acquire_lock "S1" "A" 0 []).2).1 = false ∧
    (acquire_lock "S1" "B" 301 (acquire_lock "S1" "A" 0 []).2).1 = true ∧
    (acquire_lock "S1" "B" 301 (acquire_lock "S1" "A" 0 []).2).2 = [⟨"S1", "B", 301⟩] := by
  refine ⟨?_, ?_, by decide, by decide, by decide, by decide⟩
  · intro now d
    rw [lockActive, lockExpired, not_lt]
  · intro now d
    rw [lockExpired, not_le]

/-- C4 counterexample: the code keeps a single timestamp per lease.  Renewing
at t equal 100 a lease acquired at t equal 0 yields exactly the lease store of
a fresh acquisition at t equal 100: the stored timestamp, which is set at
acquisition time, is overwritten on renewal, so no acquired_at survives
unchanged — only locked_at exists and it advances. -/
theorem acquire_lock_renewal_forgets_acquisition_time :
    (acquire_lock "S1" "A" 100 (acquire_lock "S1" "A" 0 []).2).2 =
      (acquire_lock "S1" "A" 100 []).2 ∧
    (acquire_lock "S1" "A" 100 (acquire_lock "S1" "A" 0 []).2).2 = [⟨"S1", "A", 100⟩] ∧
    (acquire_lock "S1" "A" 0 []).2 = [⟨"S1", "A", 0⟩] := by
  decide

/-- C4 amended: an actor holding an active lease and calling acquire_lock
again is granted; the lock document keeps its holder and its scheme_id and has
its single timestamp locked_at advanced to now (the code stores no separate
acquisition time), and every lock document for another record is untouched. -/
theorem acquire_lock_self_renewal (sid actor : String) (now : Int)
    (locks : List LockDoc) (d : LockDoc)
    (hfind : locks_find_one sid locks = some d)
    (hact : lockActive now d) (hold : d.locked_by = actor) :
    acquire_lock sid actor now locks = (true, locks_update_locked_at sid now locks) ∧
    locks_find_one sid (acquire_lock sid actor now locks).2 =
      some { d with locked_at := now } ∧
    (∀ e ∈ locks, e.scheme_id ≠ sid → e ∈ (acquire_lock sid actor now locks).2) := by
  have hres : acquire_lock sid actor now locks =
      (true, locks_update_locked_at sid now locks) := by
    have hact' : ¬ now - d.locked_at > 300 := hact
    simp [acquire_lock, hfind, hact', hold]
  refine ⟨hres, ?_, ?_⟩
  · rw [hres]
    exact coll_find_one_modify LockDoc.scheme_id sid _ locks d hfind rfl
  · intro e he hne
    rw [hres]
    exact coll_mem_modify_of_key_ne LockDoc.scheme_id sid _ locks e he hne

/-- C4 amended witness: A renews its own active lease at t equal 100 and is
granted with the timestamp advanced. -/
theorem acquire_lock_self_renewal_witness :
    locks_find_one "S1" [⟨"S1", "A", 0⟩] = some ⟨"S1", "A", 0⟩ ∧
    lockActive 100 (⟨"S1", "A", 0⟩ : LockDoc) ∧
    acquire_lock "S1" "A" 100 [⟨"S1", "A", 0⟩] = (true, [⟨"S1", "A", 100⟩]) := by
  refine ⟨by decide, by decide, ?_⟩
  have h := acquire_lock_self_renewal "S1" "A" 100 [⟨"S1", "A", 0⟩] ⟨"S1", "A", 0⟩
    (by decide) (by decide) rfl
  rw [h.1]
  decide

/-- C1: the race the spec flags.  Starting from no lease on S1, the schedule
in which actors A and B both run their find_one read before either write makes
acquire_lock return True to both — both Granted — and leaves two lock
documents for S1 in the locks collection, so the at-most-one-active-lease
invariant is violated as well.  The claim (exactly one Granted, one Denied) is
what the spec requires of the design; the code's read-then-write sequence is
not atomic and loses it. -/
theorem acquire_lock_race_both_granted :
    race_schedule "S1" "A" "B" 0 0 [] =
      (true, true, [⟨"S1", "A", 0⟩, ⟨"S1", "B", 0⟩]) ∧
    (acquire_lock "S1" "A" 0 [] = acquire_lock_write "S1" "A" 0
      (acquire_lock_read "S1" []) []) ∧
    (((race_schedule "S1" "A" "B" 0 0 []).2.2.filter
      (fun d => d.scheme_id == "S1")).length = 2) := by
  refine ⟨by decide, rfl, by decide⟩

/-- C9: lease-store footprint of acquire_lock.  The instrumented run performs
exactly one read, at most one write, the read comes first, and the
instrumented function computes the very result and store of acquire_lock
itself (each call works only from the store it is handed — no cache). -/
theorem acquire_lock_store_footprint (sid user : String) (now : Int)
    (locks : List LockDoc) :
    ((acquire_lock_ops sid user now locks).2.2.count StoreOp.read = 1) ∧
    ((acquire_lock_ops sid user now locks).2.2.count StoreOp.write ≤ 1) ∧
    ((acquire_lock_ops sid user now locks).2.2.head? = some StoreOp.read) ∧
    ((acquire_lock_ops sid user now locks).1 = (acquire_lock sid user now locks).1) ∧
    ((acquire_lock_ops sid user now locks).2.1 = (acquire_lock sid user now locks).2) := by
  cases hfind : locks_find_one sid locks with
  | none =>
    have h1 : acquire_lock_ops sid user now locks =
        (true, locks_insert_one ⟨sid, user, now⟩ locks, [StoreOp.read, StoreOp.write]) := by
      simp [acquire_lock_ops, hfind]
    have h2 : acquire_lock sid user now locks =
        (true, locks_insert_one ⟨sid, user, now⟩ locks) := by
      simp [acquire_lock, hfind]
    rw [h1, h2]
    exact ⟨by simp, by simp, rfl, rfl, rfl⟩
  | some d0 =>
    by_cases hexp : now - d0.locked_at > 300
    · have h1 : acquire_lock_ops sid user now locks =
          (true, locks_replace_one sid ⟨sid, user, now⟩ locks,
            [StoreOp.read, StoreOp.write]) := by
        simp [acquire_lock_ops, hfind, hexp]
      have h2 : acquire_lock sid user now locks =
          (true, locks_replace_one sid ⟨sid, user, now⟩ locks) := by
        simp [acquire_lock, hfind, hexp]
      rw [h1, h2]
      exact ⟨by simp, by simp, rfl, rfl, rfl⟩
    · by_cases hby : d0.locked_by = user
      · have h1 : acquire_lock_ops sid user now locks =
            (true, locks_update_locked_at sid now locks,
              [StoreOp.read, StoreOp.write]) := by
          simp [acquire_lock_ops, hfind, hexp, hby]
        have h2 : acquire_lock sid user now locks =
            (true, locks_update_locked_at sid now locks) := by
          simp [acquire_lock, hfind, hexp, hby]
        rw [h1, h2]
        exact ⟨by simp, by simp, rfl, rfl, rfl⟩
      · have h1 : acquire_lock_ops sid user now locks =
            (false, locks, [StoreOp.read]) := by
          simp [acquire_lock_ops, hfind, hexp, hby]
        have h2 : acquire_lock sid user now locks = (false, locks) := by
          simp [acquire_lock, hfind, hexp, hby]
        rw [h1, h2]
        exact ⟨by simp, by simp, rfl, rfl, rfl⟩

/-- C5: lease lost on save.  When a different actor's active lease is in the
locks collection — the state after that actor's granted acquisition — the old
holder's save interaction stops at the lease gate: the outcome is LeaseLost
and the whole state, the schemes collection included, is unchanged; the record
is not silently overwritten. -/
theorem save_existing_lease_lost (sid user : String) (now : Int) (draft : SchemeDoc)
    (st : AppState) (d : LockDoc)
    (hfind : locks_find_one sid st.locks = some d)
    (hact : lockActive now d) (hother : d.locked_by ≠ user) :
    save_existing sid user now draft st = (SaveOutcome.LeaseLost, st) := by
  have hact' : ¬ now - d.locked_at > 300 := hact
  have hgate : acquire_lock sid user now st.locks = (false, st.locks) := by
    simp [acquire_lock, hfind, hact', hother]
  simp [save_existing, hgate]

/-- C5 witness: A's lease on S1 expired, B acquired at t equal 310; A's save
at t equal 320 is LeaseLost and changes nothing. -/
theorem save_existing_lease_lost_witness :
    (acquire_lock "S1" "B" 310 (acquire_lock "S1" "A" 0 []).2).2 = [⟨"S1", "B", 310⟩] ∧
    save_existing "S1" "A" 320 ⟨"S1", [("scheme_name", "new text")], none, none⟩
      ⟨[⟨"S1", [("scheme_name", "old text")], none, none⟩], [⟨"S1", "B", 310⟩], []⟩ =
      (SaveOutcome.LeaseLost,
        ⟨[⟨"S1", [("scheme_name", "old text")], none, none⟩], [⟨"S1", "B", 310⟩], []⟩) := by
  refine ⟨by decide, ?_⟩
  exact save_existing_lease_lost "S1" "A" 320 ⟨"S1", [("scheme_name", "new text")], none, none⟩
    ⟨[⟨"S1", [("scheme_name", "old text")], none, none⟩], [⟨"S1", "B", 310⟩], []⟩
    ⟨"S1", "B", 310⟩ (by decide) (by decide) (by decide)

/-- C6: release idempotence.  On a well-keyed locks collection, releasing a
record's lease (locks_coll.delete_one) leaves no lease for that record;
releasing when no lease exists is a no-op rather than an error; and releasing
twice leaves exactly the store of releasing once. -/
theorem release_idempotent (sid : String) (locks : List LockDoc)
    (hwf : KeyWF LockDoc.scheme_id locks) :
    locks_delete_one sid (locks_delete_one sid locks) = locks_delete_one sid locks ∧
    (locks_find_one sid locks = none → locks_delete_one sid locks = locks) ∧
    locks_find_one sid (locks_delete_one sid locks) = none := by
  have h3 : locks_find_one sid (locks_delete_one sid locks) = none :=
    coll_find_one_delete LockDoc.scheme_id sid locks hwf
  exact ⟨coll_delete_one_of_find_none LockDoc.scheme_id sid _ h3,
    fun h => coll_delete_one_of_find_none LockDoc.scheme_id sid locks h, h3⟩

/-- C6 witness: releasing S1 twice equals releasing it once, and releasing S2,
which holds no lease, is a no-op. -/
theorem release_idempotent_witness :
    locks_delete_one "S1" (locks_delete_one "S1" [⟨"S1", "A", 0⟩]) =
      locks_delete_one "S1" [⟨"S1", "A", 0⟩] ∧
    locks_delete_one "S2" [⟨"S1", "A", 0⟩] = [⟨"S1", "A", 0⟩] := by
  have h1 := release_idempotent "S1" [⟨"S1", "A", 0⟩] (by simp [KeyWF])
  have h2 := release_idempotent "S2" [⟨"S1", "A", 0⟩] (by simp [KeyWF])
  exact ⟨h1.1, h2.2.1 (by decide)⟩

/-- C7: create validation and atomicity.  Saving a new record with a blank
scheme_id yields ValidationError with the state — so in particular the
schemes collection — exactly as before, with no write; saving one whose
scheme_id is already present yields ValidationError with the state unchanged,
so no duplicate is inserted. -/
theorem save_new_validation (draft : SchemeDoc) (user : String) (now : Int)
    (st : AppState) :
    (draft.scheme_id = "" → save_new draft user now st = (SaveOutcome.ValidationError, st)) ∧
    (∀ r, schemes_find_one draft.scheme_id st.schemes = some r →
      save_new draft user now st = (SaveOutcome.ValidationError, st)) := by
  constructor
  · intro hblank
    simp [save_new, hblank]
  · intro r hr
    by_cases hblank : draft.scheme_id = ""
    · simp [save_new, hblank]
    · simp [save_new, hblank, hr]

/-- C7 witness: a blank-id create and a duplicate-id create both return
ValidationError and leave the stores untouched. -/
theorem save_new_validation_witness :
    save_new ⟨"", [], none, none⟩ "A" 5 ⟨[], [], []⟩ =
      (SaveOutcome.ValidationError, ⟨[], [], []⟩) ∧
    save_new ⟨"S1", [("scheme_name", "dup")], none, none⟩ "A" 5
      ⟨[⟨"S1", [], none, none⟩], [], []⟩ =
      (SaveOutcome.ValidationError, ⟨[⟨"S1", [], none, none⟩], [], []⟩) := by
  constructor
  · exact (save_new_validation ⟨"", [], none, none⟩ "A" 5 ⟨[], [], []⟩).1 rfl
  · exact (save_new_validation ⟨"S1", [("scheme_name", "dup")], none, none⟩ "A" 5
      ⟨[⟨"S1", [], none, none⟩], [], []⟩).2 ⟨"S1", [], none, none⟩ (by decide)

/-- C10: frame of the delete handler.  Deleting a record removes it from the
schemes collection (on a well-keyed store), keeps every other scheme, appends
a deleted log entry, and performs no operation on the locks collection, so
every lock document — for this record or any other, any holder, expired or
active — is still there afterwards. -/
theorem delete_scheme_frame (sid user : String) (now : Int) (st : AppState) :
    (delete_scheme sid user now st).locks = st.locks ∧
    (∀ d ∈ st.locks, d ∈ (delete_scheme sid user now st).locks) ∧
    (delete_scheme sid user now st).logs =
      logs_insert_one ⟨sid, user, "deleted", now⟩ st.logs ∧
    (KeyWF SchemeDoc.scheme_id st.schemes →
      schemes_find_one sid (delete_scheme sid user now st).schemes = none) ∧
    (∀ r ∈ st.schemes, r.scheme_id ≠ sid → r ∈ (delete_scheme sid user now st).schemes) := by
  refine ⟨rfl, fun d hd => hd, rfl, ?_, ?_⟩
  · intro hwf
    exact coll_find_one_delete SchemeDoc.scheme_id sid st.schemes hwf
  · intro r hr hne
    exact coll_mem_delete_of_key_ne SchemeDoc.scheme_id sid st.schemes r hr hne

/-- C10 witness: deleting S1 while B's lock on S1 is in the locks collection
removes the scheme, appends the deleted log entry, and leaves B's lock
document in place. -/
theorem delete_scheme_frame_witness :
    (delete_scheme "S1" "A" 7
      ⟨[⟨"S1", [], none, none⟩], [⟨"S1", "B", 0⟩], []⟩).locks = [⟨"S1", "B", 0⟩] ∧
    schemes_find_one "S1" (delete_scheme "S1" "A" 7
      ⟨[⟨"S1", [], none, none⟩], [⟨"S1", "B", 0⟩], []⟩).schemes = none ∧
    (⟨"S1", "B", 0⟩ : LockDoc) ∈ (delete_scheme "S1" "A" 7
      ⟨[⟨"S1", [], none, none⟩], [⟨"S1", "B", 0⟩], []⟩).locks := by
  have h := delete_scheme_frame "S1" "A" 7
    ⟨[⟨"S1", [], none, none⟩], [⟨"S1", "B", 0⟩], []⟩
  exact ⟨h.1, h.2.2.2.1 (by simp [KeyWF]), h.2.1 ⟨"S1", "B", 0⟩ (by decide)⟩

lemma splitOnP_chunks_false {α : Type} (p : α → Bool) :
    ∀ (s : List α), ∀ c ∈ s.splitOnP p, ∀ x ∈ c, p x = false := by
  intro s
  induction s with
  | nil =>
    intro c hc x hx
    rw [List.splitOnP_nil] at hc
    rcases List.mem_singleton.mp hc with rfl
    cases hx
  | cons a t ih =>
    intro c hc x hx
    rw [List.splitOnP_cons] at hc
    by_cases hpa : p a = true
    · rw [if_pos hpa] at hc
      rcases List.mem_cons.mp hc with rfl | h2
      · cases hx
      · exact ih c h2 x hx
    · rw [if_neg hpa] at hc
      obtain ⟨h0, tws, hsplit⟩ : ∃ h0 tws, t.splitOnP p = h0 :: tws := by
        cases hsp : t.splitOnP p with
        | nil => exact absurd hsp (List.splitOnP_ne_nil p t)
        | cons h0 tws => exact ⟨h0, tws, rfl⟩
      rw [hsplit, List.modifyHead_cons] at hc
      rcases List.mem_cons.mp hc with rfl | h2
      · rcases List.mem_cons.mp hx with rfl | hx'
        · exact Bool.eq_false_iff.mpr hpa
        · exact ih h0 (hsplit ▸ List.mem_cons_self h0 tws) x hx'
      · exact ih c (hsplit ▸ List.mem_cons_of_mem h0 h2) x hx

lemma intercalate_singleton_one {α : Type} (sep : α) (a : List α) :
    List.intercalate [sep] [a] = a := by
  simp [List.intercalate]

lemma intercalate_singleton_cons {α : Type} (sep : α) (a b : List α) (t : List (List α)) :
    List.intercalate [sep] (a :: b :: t) = a ++ sep :: List.intercalate [sep] (b :: t) := by
  simp [List.intercalate, List.intersperse_cons_cons, List.flatten_cons]

lemma splitOnP_intercalate_singleton {α : Type} (p : α → Bool) (sep : α)
    (hsep : p sep = true) :
    ∀ (ls : List (List α)), ls ≠ [] → (∀ l ∈ ls, ∀ c ∈ l, p c = false) →
      (List.intercalate [sep] ls).splitOnP p = ls := by
  intro ls
  induction ls with
  | nil => intro h; exact absurd rfl h
  | cons a tl ih =>
    intro _ hfree
    have ha : ∀ x ∈ a, ¬ p x = true := by
      intro x hx
      rw [hfree a (List.mem_cons_self a tl) x hx]
      exact Bool.false_ne_true
    cases tl with
    | nil =>
      rw [intercalate_singleton_one]
      exact List.splitOnP_eq_single p a ha
    | cons b t =>
      rw [intercalate_singleton_cons, List.splitOnP_first p a ha sep hsep]
      rw [ih (by simp) (fun l hl => hfree l (List.mem_cons_of_mem a hl))]

lemma pyStrip_mem {x : Char} {s : List Char} (h : x ∈ pyStrip s) : x ∈ s := by
  rw [pyStrip] at h
  obtain ⟨r, hr⟩ := List.rdropWhile_prefix pyWhitespace (s.dropWhile pyWhitespace)
  have h1 : x ∈ s.dropWhile pyWhitespace := by
    rw [← hr]
    exact List.mem_append_left r h
  obtain ⟨w, hw⟩ :=
    (List.dropWhile_suffix pyWhitespace : List.dropWhile pyWhitespace s <:+ s)
  rw [← hw]
  exact List.mem_append_right w h1

lemma pyStrip_idem (s : List Char) : pyStrip (pyStrip s) = pyStrip s := by
  rw [pyStrip, pyStrip]
  have hdw : (List.rdropWhile pyWhitespace (s.dropWhile pyWhitespace)).dropWhile pyWhitespace
      = List.rdropWhile pyWhitespace (s.dropWhile pyWhitespace) := by
    rw [List.dropWhile_eq_self_iff]
    intro hl hp
    obtain ⟨r, hr⟩ := List.rdropWhile_prefix pyWhitespace (s.dropWhile pyWhitespace)
    have hlen : 0 < (s.dropWhile pyWhitespace).length := by
      rw [← hr, List.length_append]
      exact Nat.lt_of_lt_of_le hl (Nat.le_add_right _ _)
    apply List.dropWhile_get_zero_not pyWhitespace s hlen
    have hget : (s.dropWhile pyWhitespace).get ⟨0, hlen⟩ =
        (List.rdropWhile pyWhitespace (s.dropWhile pyWhitespace)).get ⟨0, hl⟩ := by
      have e1 := List.get_of_eq hr.symm ⟨0, hlen⟩
      have e2 := @List.get_append Char
        (List.rdropWhile pyWhitespace (s.dropWhile pyWhitespace)) r 0 hl
      exact e1.trans e2
    rw [hget]
    exact hp
  rw [hdw, List.rdropWhile_idempotent]

lemma filter_nonempty_dropLast (parts : List (List Char))
    (hlast : parts.getLast? = some []) :
    parts.dropLast.filter (fun t => !t.isEmpty) = parts.filter (fun t => !t.isEmpty) := by
  have hne : parts ≠ [] := by
    intro h
    rw [h] at hlast
    cases hlast
  have hlast' : parts.getLast hne = [] := by
    have h := List.getLast?_eq_getLast_of_ne_nil hne
    rw [h] at hlast
    exact Option.some_injective _ hlast
  conv_rhs => rw [← List.dropLast_append_getLast hne]
  rw [List.filter_append, hlast']
  simp

/-- Every entry produced by the list-field parse is stripped, free of line
boundaries, and non-blank — exactly the shape the text area hands back. -/
lemma parseListField_clean (s : List Char) :
    ∀ e ∈ parseListField s,
      pyStrip e = e ∧ (∀ c ∈ e, lineBoundary c = false) ∧ e ≠ [] := by
  intro e he
  rw [parseListField, List.mem_filter] at he
  obtain ⟨hmem, hne⟩ := he
  rw [List.mem_map] at hmem
  obtain ⟨c, hc, rfl⟩ := hmem
  refine ⟨pyStrip_idem c, ?_, by simpa using hne⟩
  intro x hx
  have hxc : x ∈ c := pyStrip_mem hx
  have hcs : c ∈ s.splitOnP lineBoundary := by
    rw [pySplitlines] at hc
    by_cases hcond : (s.splitOnP lineBoundary).getLast? = some []
    · rw [if_pos hcond] at hc
      exact List.dropLast_subset _ hc
    · rw [if_neg hcond] at hc
      exact hc
  exact splitOnP_chunks_false lineBoundary s c hcs x hxc

/-- Joining entries that are stripped and boundary-free, then re-parsing,
returns the entries with the blank ones dropped. -/
lemma parse_join_clean (l : List (List Char))
    (h : ∀ e ∈ l, pyStrip e = e ∧ ∀ c ∈ e, lineBoundary c = false) :
    parseListField (joinLines l) = l.filter (fun t => !t.isEmpty) := by
  cases l with
  | nil => decide
  | cons a tl =>
    have hsplit : (joinLines (a :: tl)).splitOnP lineBoundary = a :: tl :=
      splitOnP_intercalate_singleton lineBoundary '\n' (by decide) (a :: tl)
        (by simp) (fun e he => (h e he).2)
    have hmap : ∀ (m : List (List Char)), (∀ e ∈ m, e ∈ a :: tl) →
        m.map pyStrip = m := by
      intro m hm
      have : m.map pyStrip = m.map id :=
        List.map_congr_left (fun e he => (h e (hm e he)).1)
      rw [this, List.map_id]
    rw [parseListField, pySplitlines]
    simp only [hsplit]
    by_cases hlast : (a :: tl).getLast? = some ([] : List Char)
    · rw [if_pos hlast, hmap _ (fun e he => List.dropLast_subset _ he)]
      exact filter_nonempty_dropLast _ hlast
    · rw [if_neg hlast, hmap _ (fun _ he => he)]

/-- C8 counterexample: the list with the single untrimmed entry of a space and
the letter a round-trips to the single entry of just the letter a, while the
original list trimmed of blank lines is the original list itself, so for
arbitrary lists the parse of the join differs from the original list trimmed
of blank lines. -/
theorem list_field_round_trip_counterexample :
    parseListField (joinLines [[' ', 'a']]) = [['a']] ∧
    [[' ', 'a']].filter (fun t : List Char => !t.isEmpty) = [[' ', 'a']] ∧
    ([['a']] : List (List Char)) ≠ [[' ', 'a']] := by
  refine ⟨by decide, by decide, by decide⟩

/-- C8 amended: for lists whose entries are whitespace-trimmed and free of
line-boundary characters, the parse of the join is the original list with
blank entries dropped, in order; when the entries are moreover non-blank the
round trip is the identity; and the join-then-parse transform is idempotent on
every list whatsoever. -/
theorem list_field_round_trip (l : List (List Char))
    (hclean : ∀ e ∈ l, pyStrip e = e ∧ ∀ c ∈ e, lineBoundary c = false) :
    parseListField (joinLines l) = l.filter (fun t => !t.isEmpty) ∧
    ((∀ e ∈ l, e ≠ []) → parseListField (joinLines l) = l) ∧
    (∀ m : List (List Char),
      parseListField (joinLines (parseListField (joinLines m))) =
        parseListField (joinLines m)) := by
  refine ⟨parse_join_clean l hclean, ?_, ?_⟩
  · intro hne
    rw [parse_join_clean l hclean]
    exact List.filter_eq_self.mpr (fun e he => by simpa using hne e he)
  · intro m
    have h2 := parse_join_clean (parseListField (joinLines m))
      (fun e he => ⟨(parseListField_clean _ e he).1, (parseListField_clean _ e he).2.1⟩)
    rw [h2]
    exact List.filter_eq_self.mpr
      (fun e he => by simpa using (parseListField_clean _ e he).2.2)

/-- C8 witness: the two-entry eligibility list of the single letters a and b
is clean, and joining then re-parsing reproduces it exactly. -/
theorem list_field_round_trip_witness :
    (∀ e ∈ [['a'], ['b']], pyStrip e = e ∧ ∀ c ∈ e, lineBoundary c = false) ∧
    parseListField (joinLines [['a'], ['b']]) = [['a'], ['b']] := by
  refine ⟨by decide, ?_⟩
  exact (list_field_round_trip [['a'], ['b']] (by decide)).2.1 (by decide)

end DataEntry
